import Mathlib

/-!
# Verification of the ESC/POS printing pipeline

A shallow embedding of the image-to-raster pipeline found in
`escpos-printer.js` / `script.js`: grayscale conversion, Floyd–Steinberg
dithering, monochrome bit packing, GS v 0 command framing, nearest-neighbor
resize dimensioning, USB OUT-endpoint discovery, and the relay-socket
(WebSocket) send state machine.

Modelling conventions:
* JS `number` arithmetic on pixel intensities is embedded as exact rational
  arithmetic (`ℚ`); typed-array bytes and sizes are `Nat`.
* Typed arrays mutated by index are embedded as total functions `Nat → α`
  with pointwise functional update; loops become `List.foldl` over
  `List.range`.
* Event-driven code (the WebSocket transport) becomes a step function on an
  explicit state, run over a list of events.
-/

/-! ## Framer: `buildGsV0Raster`

Source (escpos-printer.js lines 100–111, script.js lines 318–329):
header `1D 76 30 m xL xH yL yH` where `xL = bytesPerRow & 0xFF`,
`xH = (bytesPerRow >> 8) & 0xFF`, `yL = height & 0xFF`,
`yH = (height >> 8) & 0xFF`, followed by the bitmap bytes.  Storing into a
`Uint8Array` reduces each element mod 256. -/
def buildGsV0Raster (bytesPerRow height : Nat) (bitmapData : List Nat)
    (mode : Nat) : List Nat :=
  [0x1D, 0x76, 0x30, mode % 256,
   bytesPerRow % 256, bytesPerRow / 256 % 256,
   height % 256, height / 256 % 256] ++ bitmapData

/-! ## Rasterizer: `resizeCanvasNearest` and the resize step

Source (escpos-printer.js lines 32–40 and 198–210).  `resizeCanvasNearest`
creates a destination canvas with exactly the requested dimensions and
blits the source into it with `ctx.drawImage(srcCanvas, ...)`.  The
function itself contains no validation, but `drawImage` performs the HTML
canvas usability check on its source: an `HTMLCanvasElement` of zero
width or zero height makes it throw `InvalidStateError`, which propagates
out of `resizeCanvasNearest`; that thrown error is modelled as `none`.
The target dimensions are never checked — a zero-size destination rect
simply paints nothing and the destination canvas is still returned.  The
resampled pixel values are not modelled (no claim concerns them), only
the dimensions and the error path. -/
structure JsCanvas where
  width : Nat
  height : Nat
  deriving DecidableEq

def resizeCanvasNearest (srcCanvas : JsCanvas) (targetWidth targetHeight : Nat) :
    Option JsCanvas :=
  if srcCanvas.width = 0 ∨ srcCanvas.height = 0 then none
  else some { width := targetWidth, height := targetHeight }

/-- The dimension computation of the resize step of
`printElementToPrinter` (lines 207–210):
`scale = targetWidth / baseCanvas.width`,
`targetHeight = Math.max(1, Math.round(baseCanvas.height * scale))`,
and the destination canvas is created with exactly these dimensions.
JS `Math.round` is `⌊x + 1/2⌋`, which is Mathlib's `round` on `ℚ`.
Under positive source dimensions the `drawImage` usability check modelled
in `resizeCanvasNearest` cannot fire, so the step reduces to the
dimensions it assigns. -/
def printResize (baseCanvas : JsCanvas) (targetWidth : Nat) : JsCanvas :=
  { width := targetWidth,
    height := (max 1 (round ((baseCanvas.height : ℚ) *
      ((targetWidth : ℚ) / (baseCanvas.width : ℚ)))).toNat) }

/-- **C1.** The Framer returns the 8-byte header
`[0x1D, 0x76, 0x30, mode, bytesPerRow & 0xFF, (bytesPerRow >> 8) & 0xFF,
height & 0xFF, (height >> 8) & 0xFF]` followed by the packed raster bytes
unchanged; in particular `bytesPerRow = 48, height = 100, mode = 0` yields
header bytes `1D 76 30 00 30 00 64 00`. -/
theorem buildGsV0Raster_header (bytesPerRow height mode : Nat)
    (data : List Nat) (hm : mode < 256) :
    (buildGsV0Raster bytesPerRow height data mode).take 8 =
      [0x1D, 0x76, 0x30, mode, bytesPerRow % 256, bytesPerRow / 256 % 256,
       height % 256, height / 256 % 256] ∧
    (buildGsV0Raster bytesPerRow height data mode).drop 8 = data ∧
    (buildGsV0Raster 48 100 data 0).take 8 =
      [0x1D, 0x76, 0x30, 0x00, 0x30, 0x00, 0x64, 0x00] := by
  refine ⟨?_, ?_, ?_⟩ <;> simp [buildGsV0Raster, Nat.mod_eq_of_lt hm]

theorem buildGsV0Raster_header_witness :
    (buildGsV0Raster 48 100 [7, 9] 0).take 8 =
      [0x1D, 0x76, 0x30, 0, 48 % 256, 48 / 256 % 256, 100 % 256,
       100 / 256 % 256] ∧
    (buildGsV0Raster 48 100 [7, 9] 0).drop 8 = [7, 9] ∧
    (buildGsV0Raster 48 100 [7, 9] 0).take 8 =
      [0x1D, 0x76, 0x30, 0x00, 0x30, 0x00, 0x64, 0x00] :=
  buildGsV0Raster_header 48 100 0 [7, 9] (by decide)

/-- **C4 counterexample.** At `bytesPerRow = 0x10000 > 0xFFFF` the Framer
does not fail: it returns a complete command buffer, with the overflowed
field silently truncated to `00 00` (the low 16 bits). -/
theorem buildGsV0Raster_overflow_counterexample :
    buildGsV0Raster 65536 1 [0xAB] 0 =
      [0x1D, 0x76, 0x30, 0x00, 0x00, 0x00, 0x01, 0x00, 0xAB] := by
  decide

/-- **C4 (amended).** The Framer never fails: for every `bytesPerRow` and
`height`, including values above `0xFFFF`, it produces a command buffer of
length `8 + data.length` whose 16-bit fields are silently truncated
(each field is taken mod 2^16 and split little-endian into bytes 4–7). -/
theorem buildGsV0Raster_total (bytesPerRow height mode : Nat)
    (data : List Nat) :
    (buildGsV0Raster bytesPerRow height data mode).length = 8 + data.length ∧
    (buildGsV0Raster bytesPerRow height data mode).getD 4 0 = bytesPerRow % 256 ∧
    (buildGsV0Raster bytesPerRow height data mode).getD 5 0 = bytesPerRow / 256 % 256 ∧
    (buildGsV0Raster bytesPerRow height data mode).getD 6 0 = height % 256 ∧
    (buildGsV0Raster bytesPerRow height data mode).getD 7 0 = height / 256 % 256 := by
  refine ⟨?_, ?_, ?_, ?_, ?_⟩ <;> simp [buildGsV0Raster] <;> omega

/-- **C8 counterexample.** With a positive-dimension source canvas and
`targetWidth = 0`, the resize routine does not fail with `InvalidInput`:
it succeeds, returning a canvas with the requested dimensions (a
zero-size destination rect in `drawImage` paints nothing and does not
throw). -/
theorem resizeCanvasNearest_counterexample :
    resizeCanvasNearest { width := 5, height := 5 } 0 7 =
      some { width := 0, height := 7 } := rfl

/-- **C8 (amended).** The resize operation does not validate the target
width: for every source canvas with positive width and height it
succeeds — including `targetWidth = 0` — returning a canvas whose width
and height are exactly the requested targets; it fails only when the
source canvas has zero width or zero height, where the `drawImage`
usability check throws (`InvalidStateError`, not a deliberate
`InvalidInput` validation). -/
theorem resizeCanvasNearest_behavior (src : JsCanvas)
    (targetWidth targetHeight : Nat) :
    (1 ≤ src.width → 1 ≤ src.height →
      resizeCanvasNearest src targetWidth targetHeight =
        some { width := targetWidth, height := targetHeight }) ∧
    ((src.width = 0 ∨ src.height = 0) →
      resizeCanvasNearest src targetWidth targetHeight = none) := by
  constructor
  · intro hw hh
    rw [resizeCanvasNearest, if_neg (by omega)]
  · intro hz
    rw [resizeCanvasNearest, if_pos hz]

theorem resizeCanvasNearest_behavior_witness :
    resizeCanvasNearest { width := 5, height := 5 } 3 7 =
      some { width := 3, height := 7 } ∧
    resizeCanvasNearest { width := 0, height := 5 } 3 7 = none :=
  ⟨(resizeCanvasNearest_behavior { width := 5, height := 5 } 3 7).1
      (by decide) (by decide),
   (resizeCanvasNearest_behavior { width := 0, height := 5 } 3 7).2
      (Or.inl rfl)⟩

/-- **C7.** For every source canvas with `width ≥ 1` and `height ≥ 1` and
every positive target width, the resize step outputs width equal to the
requested target and height equal to
`max 1 (round (src.height * targetWidth / src.width))`, which is within
±1 of `height * target / width`. -/
theorem printResize_dims (c : JsCanvas) (t : Nat)
    (hw : 1 ≤ c.width) (hh : 1 ≤ c.height) (ht : 1 ≤ t) :
    (printResize c t).width = t ∧
    (printResize c t).height =
      max 1 (round ((c.height : ℚ) * ((t : ℚ) / (c.width : ℚ)))).toNat ∧
    |((printResize c t).height : ℚ) - (c.height : ℚ) * (t : ℚ) / (c.width : ℚ)| ≤ 1 := by
  have hwq : (0 : ℚ) < (c.width : ℚ) := by exact_mod_cast hw
  have hhq : (0 : ℚ) < (c.height : ℚ) := by exact_mod_cast hh
  have htq : (0 : ℚ) < (t : ℚ) := by exact_mod_cast ht
  set v : ℚ := (c.height : ℚ) * ((t : ℚ) / (c.width : ℚ)) with hv
  have hv0 : 0 < v := mul_pos hhq (div_pos htq hwq)
  have hr : |v - (round v : ℚ)| ≤ 1 / 2 := abs_sub_round v
  have hr0 : 0 ≤ round v := by
    rw [round_eq]
    refine Int.floor_nonneg.mpr ?_
    linarith
  have hres : (printResize c t).height = max 1 (round v).toNat := rfl
  refine ⟨rfl, hres, ?_⟩
  rw [hres, mul_div_assoc, ← hv]
  by_cases hz : (round v).toNat = 0
  · have hzero : round v = 0 := by omega
    have hvle : v ≤ 1 / 2 := by
      rw [hzero] at hr
      simpa [abs_of_nonneg hv0.le] using hr
    have hmax : max 1 (round v).toNat = 1 := by omega
    rw [hmax]
    rw [abs_of_nonneg (by push_cast; linarith)]
    push_cast
    linarith
  · have hmax : max 1 (round v).toNat = (round v).toNat := by omega
    rw [hmax]
    have hcast : (((round v).toNat : ℚ)) = ((round v : ℤ) : ℚ) := by
      exact_mod_cast congrArg (fun z : ℤ => (z : ℚ)) (Int.toNat_of_nonneg hr0)
    rw [hcast]
    refine abs_le.mpr ⟨?_, ?_⟩ <;> linarith [abs_le.mp hr]

theorem printResize_dims_witness :
    (printResize { width := 3, height := 2 } 5).width = 5 ∧
    (printResize { width := 3, height := 2 } 5).height =
      max 1 (round (((JsCanvas.mk 3 2).height : ℚ) *
        (((5 : Nat) : ℚ) / ((JsCanvas.mk 3 2).width : ℚ)))).toNat ∧
    |((printResize { width := 3, height := 2 } 5).height : ℚ) -
      ((JsCanvas.mk 3 2).height : ℚ) * ((5 : Nat) : ℚ) /
        ((JsCanvas.mk 3 2).width : ℚ)| ≤ 1 :=
  printResize_dims { width := 3, height := 2 } 5 (by decide) (by decide) (by decide)

/-! ## Luminance Converter: `grayscaleImageData`

Source (escpos-printer.js lines 42–57, script.js lines 266–280).  The RGBA
byte stream is embedded as a total function `Nat → ℚ` (index `i` is byte
`i` of `imgData.data`); pixel `p` reads bytes `4p..4p+3`.  The JS float
arithmetic is embedded exactly over `ℚ` (`0.299 = 299/1000`, etc.). -/
def grayPixel (r g b a : ℚ) : ℚ :=
  let alpha := a / 255
  let rr := r * alpha + 255 * (1 - alpha)
  let gg := g * alpha + 255 * (1 - alpha)
  let bb := b * alpha + 255 * (1 - alpha)
  299 / 1000 * rr + 587 / 1000 * gg + 114 / 1000 * bb

def grayscaleImageData (data : Nat → ℚ) (width height : Nat) : Nat → ℚ :=
  fun p => grayPixel (data (4 * p)) (data (4 * p + 1)) (data (4 * p + 2))
    (data (4 * p + 3))

/-- **C5.** The Luminance Converter composites each channel over opaque
white (`channel * alpha + 255 * (1 - alpha)`, `alpha = A/255`) and reduces
with weights `0.299/0.587/0.114`; an opaque pure-white buffer yields `255`
everywhere, an opaque pure-black buffer yields `0` everywhere, and a
50%-alpha black buffer (`A = 128`) yields values within `1/2` of `127.5`
(exactly `127`). -/
theorem grayscaleImageData_spec (data : Nat → ℚ) (width height p : Nat)
    (hp : p < width * height) (hrange : ∀ i, 0 ≤ data i ∧ data i ≤ 255) :
    grayscaleImageData data width height p =
        299 / 1000 * (data (4 * p) * (data (4 * p + 3) / 255)
          + 255 * (1 - data (4 * p + 3) / 255))
      + 587 / 1000 * (data (4 * p + 1) * (data (4 * p + 3) / 255)
          + 255 * (1 - data (4 * p + 3) / 255))
      + 114 / 1000 * (data (4 * p + 2) * (data (4 * p + 3) / 255)
          + 255 * (1 - data (4 * p + 3) / 255)) ∧
    grayscaleImageData (fun _ => 255) width height p = 255 ∧
    grayscaleImageData (fun i => if i % 4 = 3 then 255 else 0) width height p = 0 ∧
    |grayscaleImageData (fun i => if i % 4 = 3 then 128 else 0) width height p
      - 255 / 2| ≤ 1 / 2 := by
  have h0 : (4 * p) % 4 = 0 := by omega
  have h1 : (4 * p + 1) % 4 = 1 := by omega
  have h2 : (4 * p + 2) % 4 = 2 := by omega
  have h3 : (4 * p + 3) % 4 = 3 := by omega
  refine ⟨rfl, ?_, ?_, ?_⟩ <;>
    simp [grayscaleImageData, grayPixel, h0, h1, h2, h3] <;> norm_num [abs_le]

theorem grayscaleImageData_spec_witness :
    grayscaleImageData (fun _ => (255 : ℚ)) 1 1 0 = 255 ∧
    grayscaleImageData (fun i => if i % 4 = 3 then (255 : ℚ) else 0) 1 1 0 = 0 ∧
    |grayscaleImageData (fun i => if i % 4 = 3 then (128 : ℚ) else 0) 1 1 0
      - 255 / 2| ≤ 1 / 2 :=
  (grayscaleImageData_spec (fun _ => 0) 1 1 0 (by decide)
    (fun i => by norm_num)).2

/-! ## Transport: `sendViaWebSocket`

Source (escpos-printer.js lines 115–134, script.js lines 393–410).  The
function registers handlers on a fresh WebSocket and settles a promise:
the `open` handler sends the buffer; `close` resolves; `error` rejects;
`message` is a no-op; a timer fires once and, if the socket is still
`OPEN`, closes it and resolves.  This event-driven code is embedded as a
step function on an explicit state, run over the sequence of events
actually delivered; a promise settles only once, so `wsSettle` keeps the
first outcome. -/
inductive WsOutcome
  | success
  | transportFailure
  deriving DecidableEq

inductive WsEvent
  | evOpen
  | evMessage
  | evClose
  | evError
  | evTimeout
  deriving DecidableEq

/-- WebSocket `readyState` constants: 0 CONNECTING, 1 OPEN, 3 CLOSED. -/
def wsOPEN : Nat := 1

structure WsState where
  settled : Option WsOutcome
  readyState : Nat
  sentData : Bool
  deriving DecidableEq

def wsSettle (s : WsState) (o : WsOutcome) : WsState :=
  match s.settled with
  | some _ => s
  | none => { s with settled := some o }

def wsStep (s : WsState) : WsEvent → WsState
  | .evOpen => { s with readyState := wsOPEN, sentData := true }
  | .evMessage => s
  | .evClose => wsSettle { s with readyState := 3 } .success
  | .evError => wsSettle s .transportFailure
  | .evTimeout =>
      if s.readyState = wsOPEN then wsSettle { s with readyState := 3 } .success
      else s

def wsInit : WsState := { settled := none, readyState := 0, sentData := false }

def sendViaWebSocket (events : List WsEvent) : WsState :=
  events.foldl wsStep wsInit

/-- Once the promise is settled, later events never change the outcome. -/
theorem wsSettled_persists (events : List WsEvent) (s : WsState)
    (o : WsOutcome) (h : s.settled = some o) :
    (events.foldl wsStep s).settled = some o := by
  induction events generalizing s with
  | nil => exact h
  | cons e rest ih =>
      refine ih (wsStep s e) ?_
      cases e <;> simp [wsStep, wsSettle, h] <;> split <;> simp_all

theorem wsSettled_persists_witness :
    (([] : List WsEvent).foldl wsStep
      { settled := some .success, readyState := 3, sentData := true }).settled
      = some .success :=
  wsSettled_persists []
    { settled := some .success, readyState := 3, sentData := true }
    .success rfl

/-- **C9.** Relay-socket semantics: after `open` (which sends the buffer)
an idle timeout with no close event still resolves as success; an error
before open/send rejects as `TransportFailure` no matter what follows; a
server-initiated close after send also resolves as success. -/
theorem sendViaWebSocket_semantics :
    ((sendViaWebSocket [.evOpen, .evTimeout]).settled = some .success ∧
      (sendViaWebSocket [.evOpen, .evTimeout]).sentData = true) ∧
    (∀ rest : List WsEvent,
      (sendViaWebSocket (.evError :: rest)).settled = some .transportFailure) ∧
    (sendViaWebSocket [.evOpen, .evClose]).settled = some .success := by
  refine ⟨⟨by decide, by decide⟩, ?_, by decide⟩
  intro rest
  exact wsSettled_persists rest (wsStep wsInit .evError) .transportFailure rfl

/-! ## Transport: USB endpoint discovery in `openUsbDevice`

Source (escpos-printer.js lines 153–194, script.js lines 346–385).  The
discovery loops scan `device.configuration.interfaces`, then each
interface's `alternates`, then each alternate's `endpoints` (skipping
alternates whose `endpoints` field is absent), and stop at the first
endpoint whose `direction` is `"out"`, recording the owning interface's
`interfaceNumber` and that endpoint's `endpointNumber`; if none is found
the function throws (modelled as `none`). -/
structure UsbEndpoint where
  direction : String
  endpointNumber : Nat
  deriving DecidableEq

structure UsbAlternate where
  endpoints : Option (List UsbEndpoint)
  deriving DecidableEq

structure UsbInterface where
  interfaceNumber : Nat
  alternates : List UsbAlternate
  deriving DecidableEq

/-- The innermost loop (`for (const ep of alt.endpoints)`). -/
def findEndpointOut : List UsbEndpoint → Option Nat
  | [] => none
  | ep :: rest =>
      if ep.direction = "out" then some ep.endpointNumber
      else findEndpointOut rest

/-- The middle loop (`for (const alt of cfg.alternates)`), with the
`if (!alt.endpoints) continue` guard. -/
def findAlternateOut : List UsbAlternate → Option Nat
  | [] => none
  | alt :: rest =>
      match alt.endpoints with
      | none => findAlternateOut rest
      | some eps =>
          match findEndpointOut eps with
          | some n => some n
          | none => findAlternateOut rest

/-- The outer loop (`for (const cfg of device.configuration.interfaces)`);
`none` models the thrown `Could not find an OUT endpoint` error. -/
def openUsbDevice : List UsbInterface → Option (Nat × Nat)
  | [] => none
  | cfg :: rest =>
      match findAlternateOut cfg.alternates with
      | some n => some (cfg.interfaceNumber, n)
      | none => openUsbDevice rest

/-- Spec-side reading of the discovery rule: all endpoints of the device
tree flattened in declared interface-then-alternate-then-endpoint order,
each paired with its owning interface's number. -/
def declaredEndpoints (interfaces : List UsbInterface) : List (Nat × UsbEndpoint) :=
  interfaces.flatMap (fun cfg =>
    (cfg.alternates.flatMap (fun alt => alt.endpoints.getD [])).map
      (fun ep => (cfg.interfaceNumber, ep)))

/-- Spec-side reading of the selection: the first declared endpoint whose
direction is OUT. -/
def firstOutEndpoint (interfaces : List UsbInterface) : Option (Nat × Nat) :=
  ((declaredEndpoints interfaces).find?
      (fun pr => pr.2.direction == "out")).map
    (fun pr => (pr.1, pr.2.endpointNumber))

theorem findEndpointOut_eq (eps : List UsbEndpoint) :
    findEndpointOut eps =
      (eps.find? (fun ep => ep.direction == "out")).map
        (fun ep => ep.endpointNumber) := by
  induction eps with
  | nil => simp [findEndpointOut]
  | cons ep rest ih =>
      by_cases h : ep.direction = "out" <;>
        simp [findEndpointOut, h, ih]

theorem findAlternateOut_eq (alts : List UsbAlternate) :
    findAlternateOut alts =
      ((alts.flatMap (fun alt => alt.endpoints.getD [])).find?
          (fun ep => ep.direction == "out")).map
        (fun ep => ep.endpointNumber) := by
  induction alts with
  | nil => simp [findAlternateOut]
  | cons alt rest ih =>
      cases halt : alt.endpoints with
      | none => simp [findAlternateOut, halt, ih]
      | some eps =>
          cases hf : eps.find? (fun ep => ep.direction == "out") with
          | none =>
              simp [findAlternateOut, halt, findEndpointOut_eq, hf, ih,
                List.find?_append]
          | some ep =>
              simp [findAlternateOut, halt, findEndpointOut_eq, hf,
                List.find?_append]

/-- **C6.** USB endpoint discovery selects exactly the first endpoint, in
declared interface-then-alternate-then-endpoint order, whose direction is
OUT, returning its endpoint number with its owning interface's number; if
no OUT endpoint exists anywhere in the tree, discovery fails (the error
modelled as `none`). -/
theorem openUsbDevice_first_out (interfaces : List UsbInterface) :
    openUsbDevice interfaces = firstOutEndpoint interfaces ∧
    ((∀ pr ∈ declaredEndpoints interfaces, pr.2.direction ≠ "out") →
      openUsbDevice interfaces = none) := by
  have hmain : openUsbDevice interfaces = firstOutEndpoint interfaces := by
    induction interfaces with
    | nil => simp [openUsbDevice, firstOutEndpoint, declaredEndpoints]
    | cons cfg rest ih =>
        rw [openUsbDevice, firstOutEndpoint, declaredEndpoints,
          List.flatMap_cons, List.find?_append, List.find?_map]
        cases hf : (cfg.alternates.flatMap fun alt => alt.endpoints.getD []).find?
            (fun ep => ep.direction == "out") with
        | none =>
            simp [findAlternateOut_eq, hf, Function.comp_def, ih,
              firstOutEndpoint, declaredEndpoints]
        | some ep =>
            simp [findAlternateOut_eq, hf, Function.comp_def]
  refine ⟨hmain, fun hnone => ?_⟩
  rw [hmain, firstOutEndpoint]
  rw [List.find?_eq_none.mpr (by simpa using hnone)]
  rfl

theorem openUsbDevice_first_out_witness :
    openUsbDevice
      [⟨0, [⟨some [{ direction := "in", endpointNumber := 1 }]⟩]⟩] = none :=
  (openUsbDevice_first_out
    [⟨0, [⟨some [{ direction := "in", endpointNumber := 1 }]⟩]⟩]).2
    (by decide)

/-! ## Disperser: `floydSteinbergDither`

Source (escpos-printer.js lines 59–77, script.js lines 282–298).  The
mutable `grayArray` (`Float32Array`) and output `bw` (`Uint8Array`) are
embedded as functions with pointwise update; the double loop is a fold
over `List.range height` and `List.range width`, so pixels are visited in
row-major order (left to right, top to bottom).  At pixel `(x, y)` with
`idx = y*width + x`: `newVal = oldVal < 128 ? 0 : 255`,
`err = oldVal - newVal`, `bw[idx] = newVal === 0 ? 1 : 0`, then the four
guarded accumulations `grayArray[idx+1] += err*7/16` (if `x+1 < width`),
`grayArray[idx+width-1] += err*3/16` (if `x-1 >= 0 && y+1 < height`),
`grayArray[idx+width] += err*5/16` (if `y+1 < height`), and
`grayArray[idx+width+1] += err*1/16` (if both).  `fsStage c g j w` is one
such guarded `g[j] += w`. -/
def updFn (g : Nat → ℚ) (j : Nat) (v : ℚ) : Nat → ℚ :=
  fun k => if k = j then v else g k

def updBw (bw : Nat → Nat) (j v : Nat) : Nat → Nat :=
  fun k => if k = j then v else bw k

def fsStage (c : Prop) [Decidable c] (g : Nat → ℚ) (j : Nat) (w : ℚ) :
    Nat → ℚ :=
  if c then updFn g j (g j + w) else g

def fsStep (width height : Nat) (st : (Nat → ℚ) × (Nat → Nat)) (y x : Nat) :
    (Nat → ℚ) × (Nat → Nat) :=
  let idx := y * width + x
  let oldVal := st.1 idx
  let newVal : ℚ := if oldVal < 128 then 0 else 255
  let err : ℚ := oldVal - newVal
  (fsStage (x + 1 < width ∧ y + 1 < height)
    (fsStage (y + 1 < height)
      (fsStage (1 ≤ x ∧ y + 1 < height)
        (fsStage (x + 1 < width) st.1 (idx + 1) (err * 7 / 16))
        (idx + width - 1) (err * 3 / 16))
      (idx + width) (err * 5 / 16))
    (idx + width + 1) (err * 1 / 16),
   updBw st.2 idx (if newVal = 0 then 1 else 0))

def floydSteinbergDither (grayArray : Nat → ℚ) (width height : Nat) :
    Nat → Nat :=
  ((List.range height).foldl (fun st y =>
    (List.range width).foldl (fun st x => fsStep width height st y x) st)
    (grayArray, fun _ => 0)).2

theorem fsStage_hit {c : Prop} [Decidable c] (hc : c) (g : Nat → ℚ)
    (j : Nat) (w : ℚ) : fsStage c g j w j = g j + w := by
  simp [fsStage, updFn, hc]

theorem fsStage_skip {c : Prop} [Decidable c] {j k : Nat} (hk : k ≠ j)
    (g : Nat → ℚ) (w : ℚ) : fsStage c g j w k = g k := by
  unfold fsStage
  split
  · simp [updFn, hk]
  · rfl

theorem fsStage_off {c : Prop} [Decidable c] (hc : ¬c) (g : Nat → ℚ)
    (j : Nat) (w : ℚ) (k : Nat) : fsStage c g j w k = g k := by
  simp [fsStage, hc]

theorem foldl_preserve {α β : Type} (P : α → Prop) (f : α → β → α)
    (l : List β) (s : α) (h0 : P s) (hstep : ∀ a b, P a → P (f a b)) :
    P (l.foldl f s) := by
  induction l generalizing s with
  | nil => exact h0
  | cons b rest ih => exact ih (f s b) (hstep s b h0)

theorem fsStep_bw_binary (width height y x : Nat)
    (st : (Nat → ℚ) × (Nat → Nat))
    (h : ∀ i, st.2 i = 0 ∨ st.2 i = 1) :
    ∀ i, (fsStep width height st y x).2 i = 0 ∨
         (fsStep width height st y x).2 i = 1 := by
  intro i
  simp only [fsStep, updBw]
  split_ifs <;> simp [h i]

theorem floydSteinbergDither_binary (g : Nat → ℚ) (width height i : Nat) :
    floydSteinbergDither g width height i = 0 ∨
    floydSteinbergDither g width height i = 1 := by
  unfold floydSteinbergDither
  refine foldl_preserve
    (fun st : (Nat → ℚ) × (Nat → Nat) => ∀ j, st.2 j = 0 ∨ st.2 j = 1)
    _ _ _ (fun j => Or.inl rfl) ?_ i
  intro st y hst
  refine foldl_preserve
    (fun st : (Nat → ℚ) × (Nat → Nat) => ∀ j, st.2 j = 0 ∨ st.2 j = 1)
    _ _ _ hst ?_
  intro st2 x hst2
  exact fsStep_bw_binary width height y x st2 hst2

theorem fsStep_mark (width height y x : Nat) (g : Nat → ℚ) (bw : Nat → Nat) :
    (fsStep width height (g, bw) y x).2 (y * width + x) =
      if g (y * width + x) < 128 then 1 else 0 := by
  unfold fsStep
  dsimp only
  simp only [updBw, if_pos rfl]
  split_ifs <;> simp_all

theorem fsStep_right (width height y x : Nat) (g : Nat → ℚ) (bw : Nat → Nat)
    (h1 : x + 1 < width) :
    (fsStep width height (g, bw) y x).1 (y * width + x + 1) =
      g (y * width + x + 1) +
        (g (y * width + x) - (if g (y * width + x) < 128 then 0 else 255))
          * 7 / 16 := by
  unfold fsStep
  dsimp only
  rw [fsStage_skip (show y * width + x + 1 ≠ y * width + x + width + 1 by omega)]
  rw [fsStage_skip (show y * width + x + 1 ≠ y * width + x + width by omega)]
  by_cases hw : width = 2
  · rw [fsStage_off (show ¬(1 ≤ x ∧ y + 1 < height) by omega)]
    rw [fsStage_hit h1]
  · rw [fsStage_skip (show y * width + x + 1 ≠ y * width + x + width - 1 by omega)]
    rw [fsStage_hit h1]

theorem fsStep_belowLeft (width height y x : Nat) (g : Nat → ℚ)
    (bw : Nat → Nat) (h1 : 1 ≤ x) (h2 : y + 1 < height) :
    (fsStep width height (g, bw) y x).1 (y * width + x + width - 1) =
      g (y * width + x + width - 1) +
        (g (y * width + x) - (if g (y * width + x) < 128 then 0 else 255))
          * 3 / 16 := by
  unfold fsStep
  dsimp only
  rw [fsStage_skip (show y * width + x + width - 1 ≠ y * width + x + width + 1
    by omega)]
  rw [fsStage_skip (show y * width + x + width - 1 ≠ y * width + x + width
    by omega)]
  rw [fsStage_hit (⟨h1, h2⟩ : 1 ≤ x ∧ y + 1 < height)]
  by_cases hw : width = 2
  · rw [fsStage_off (show ¬(x + 1 < width) by omega)]
  · rw [fsStage_skip (show y * width + x + width - 1 ≠ y * width + x + 1
      by omega)]

theorem fsStep_below (width height y x : Nat) (g : Nat → ℚ) (bw : Nat → Nat)
    (h2 : y + 1 < height) :
    (fsStep width height (g, bw) y x).1 (y * width + x + width) =
      g (y * width + x + width) +
        (g (y * width + x) - (if g (y * width + x) < 128 then 0 else 255))
          * 5 / 16 := by
  unfold fsStep
  dsimp only
  rw [fsStage_skip (show y * width + x + width ≠ y * width + x + width + 1
    by omega)]
  rw [fsStage_hit h2]
  by_cases hx : 1 ≤ x
  · rw [fsStage_skip (show y * width + x + width ≠ y * width + x + width - 1
      by omega)]
    by_cases hw : width = 1
    · rw [fsStage_off (show ¬(x + 1 < width) by omega)]
    · by_cases hw0 : width = 0
      · rw [fsStage_off (show ¬(x + 1 < width) by omega)]
      · rw [fsStage_skip (show y * width + x + width ≠ y * width + x + 1
          by omega)]
  · rw [fsStage_off (show ¬(1 ≤ x ∧ y + 1 < height) by omega)]
    by_cases hw : width ≤ 1
    · rw [fsStage_off (show ¬(x + 1 < width) by omega)]
    · rw [fsStage_skip (show y * width + x + width ≠ y * width + x + 1
        by omega)]

theorem fsStep_belowRight (width height y x : Nat) (g : Nat → ℚ)
    (bw : Nat → Nat) (h1 : x + 1 < width) (h2 : y + 1 < height) :
    (fsStep width height (g, bw) y x).1 (y * width + x + width + 1) =
      g (y * width + x + width + 1) +
        (g (y * width + x) - (if g (y * width + x) < 128 then 0 else 255))
          * 1 / 16 := by
  unfold fsStep
  dsimp only
  rw [fsStage_hit (⟨h1, h2⟩ : x + 1 < width ∧ y + 1 < height)]
  rw [fsStage_skip (show y * width + x + width + 1 ≠ y * width + x + width
    by omega)]
  rw [fsStage_skip (show y * width + x + width + 1 ≠ y * width + x + width - 1
    by omega)]
  rw [fsStage_skip (show y * width + x + width + 1 ≠ y * width + x + 1
    by omega)]

/-- **C2.** The Disperser visits pixels in row-major order (the nested
fold over rows then columns); at each pixel it thresholds the
error-adjusted value at 128 — emitting 1 (mark) when `< 128` and 0
(blank) when `≥ 128` — takes the signed error `value - 0` resp.
`value - 255`, and adds `7/16` of it to the right neighbor, `3/16` to
below-left, `5/16` to below and `1/16` to below-right, each skipped when
the neighbor lies outside the buffer; consequently every output entry is
0 or 1 for any input. -/
theorem floydSteinbergDither_spec (g : Nat → ℚ) (bw : Nat → Nat)
    (width height x y i : Nat) :
    ((fsStep width height (g, bw) y x).2 (y * width + x) =
      if g (y * width + x) < 128 then 1 else 0) ∧
    (x + 1 < width →
      (fsStep width height (g, bw) y x).1 (y * width + x + 1) =
        g (y * width + x + 1) +
          (g (y * width + x) -
            (if g (y * width + x) < 128 then 0 else 255)) * 7 / 16) ∧
    (1 ≤ x → y + 1 < height →
      (fsStep width height (g, bw) y x).1 (y * width + x + width - 1) =
        g (y * width + x + width - 1) +
          (g (y * width + x) -
            (if g (y * width + x) < 128 then 0 else 255)) * 3 / 16) ∧
    (y + 1 < height →
      (fsStep width height (g, bw) y x).1 (y * width + x + width) =
        g (y * width + x + width) +
          (g (y * width + x) -
            (if g (y * width + x) < 128 then 0 else 255)) * 5 / 16) ∧
    (x + 1 < width → y + 1 < height →
      (fsStep width height (g, bw) y x).1 (y * width + x + width + 1) =
        g (y * width + x + width + 1) +
          (g (y * width + x) -
            (if g (y * width + x) < 128 then 0 else 255)) * 1 / 16) ∧
    (floydSteinbergDither g width height i = 0 ∨
     floydSteinbergDither g width height i = 1) :=
  ⟨fsStep_mark width height y x g bw,
   fun h1 => fsStep_right width height y x g bw h1,
   fun h1 h2 => fsStep_belowLeft width height y x g bw h1 h2,
   fun h2 => fsStep_below width height y x g bw h2,
   fun h1 h2 => fsStep_belowRight width height y x g bw h1 h2,
   floydSteinbergDither_binary g width height i⟩

theorem floydSteinbergDither_spec_witness :
    ((fsStep 3 2 (fun _ => (0 : ℚ), fun _ => 0) 0 1).2 (0 * 3 + 1) = 1) ∧
    ((fsStep 3 2 (fun _ => (0 : ℚ), fun _ => 0) 0 1).1 (0 * 3 + 1 + 1) =
      0 + (0 - 0) * 7 / 16) ∧
    ((fsStep 3 2 (fun _ => (0 : ℚ), fun _ => 0) 0 1).1 (0 * 3 + 1 + 3 - 1) =
      0 + (0 - 0) * 3 / 16) ∧
    ((fsStep 3 2 (fun _ => (0 : ℚ), fun _ => 0) 0 1).1 (0 * 3 + 1 + 3) =
      0 + (0 - 0) * 5 / 16) ∧
    ((fsStep 3 2 (fun _ => (0 : ℚ), fun _ => 0) 0 1).1 (0 * 3 + 1 + 3 + 1) =
      0 + (0 - 0) * 1 / 16) ∧
    (floydSteinbergDither (fun _ => (0 : ℚ)) 3 2 0 = 0 ∨
     floydSteinbergDither (fun _ => (0 : ℚ)) 3 2 0 = 1) := by
  have h := floydSteinbergDither_spec (fun _ => (0 : ℚ)) (fun _ => 0) 3 2 1 0 0
  refine ⟨?_, ?_, ?_, ?_, ?_, h.2.2.2.2.2⟩
  · have := h.1
    norm_num at this ⊢
    exact this
  · have := h.2.1 (by omega)
    norm_num at this ⊢
    exact this
  · have := h.2.2.1 (by omega) (by omega)
    norm_num at this ⊢
    exact this
  · have := h.2.2.2.1 (by omega)
    norm_num at this ⊢
    exact this
  · have := h.2.2.2.2.1 (by omega) (by omega)
    norm_num at this ⊢
    exact this

/-! ## Packer: `packBitsMonochrome`

Source (escpos-printer.js lines 79–98, script.js lines 300–316).
`bytesPerRow = Math.ceil(width / 8)`; for each row `y` and byte index
`bx`, the inner loop over `bit` in 0..7 computes `x = bx*8 + bit`, skips
`x >= width`, and ORs `0x80 >> bit` into the byte when
`bitArray[y*width + x]` is truthy (any nonzero value); the byte is stored
at `out[y*bytesPerRow + bx]`.  The output `Uint8Array` (zero-initialised)
is embedded as a function `Nat → Nat` built by pointwise writes. -/
def bytesPerRow (width : Nat) : Nat := (width + 7) / 8

def packByte (bitArray : Nat → Nat) (width y bx : Nat) : Nat :=
  (List.range 8).foldl (fun byte bit =>
    if bx * 8 + bit < width ∧ bitArray (y * width + (bx * 8 + bit)) ≠ 0
    then byte ||| (0x80 >>> bit) else byte) 0x00

def packBitsMonochrome (bitArray : Nat → Nat) (width height : Nat) :
    Nat → Nat :=
  (List.range height).foldl (fun out y =>
    (List.range (bytesPerRow width)).foldl (fun out bx =>
      fun i => if i = y * bytesPerRow width + bx
               then packByte bitArray width y bx else out i) out)
    (fun _ => 0)

theorem ite_or_eq (c : Prop) [Decidable c] (a m : Nat) :
    (if c then a ||| m else a) = a ||| (if c then m else 0) := by
  split <;> simp

theorem testBit_ite_pow (c : Prop) [Decidable c] (k j : Nat) :
    (if c then 2 ^ k else 0).testBit j = (decide c && decide (k = j)) := by
  split <;> simp [Nat.testBit_two_pow] <;> simp [*]

theorem range_eight : List.range 8 = [0, 1, 2, 3, 4, 5, 6, 7] := by decide

/-- Bit `7 - j` of a packed byte is set exactly when column `bx*8 + j` is
in range and the corresponding input entry is nonzero. -/
theorem packByte_testBit (bitArray : Nat → Nat) (width y bx j : Nat)
    (hj : j < 8) :
    (packByte bitArray width y bx).testBit (7 - j) =
      decide (bx * 8 + j < width ∧
        bitArray (y * width + (bx * 8 + j)) ≠ 0) := by
  unfold packByte
  rw [range_eight]
  simp only [List.foldl, ite_or_eq,
    show (0x80 : Nat) >>> 0 = 2 ^ 7 from rfl,
    show (0x80 : Nat) >>> 1 = 2 ^ 6 from rfl,
    show (0x80 : Nat) >>> 2 = 2 ^ 5 from rfl,
    show (0x80 : Nat) >>> 3 = 2 ^ 4 from rfl,
    show (0x80 : Nat) >>> 4 = 2 ^ 3 from rfl,
    show (0x80 : Nat) >>> 5 = 2 ^ 2 from rfl,
    show (0x80 : Nat) >>> 6 = 2 ^ 1 from rfl,
    show (0x80 : Nat) >>> 7 = 2 ^ 0 from rfl]
  simp only [Nat.testBit_or, testBit_ite_pow]
  interval_cases j <;> simp

theorem shiftRight_and_one (n k : Nat) :
    (n >>> k) &&& 1 = if n.testBit k then 1 else 0 := by
  rw [Nat.and_one_is_mod, Nat.testBit_to_div_mod, Nat.shiftRight_eq_div_pow]
  rcases Nat.mod_two_eq_zero_or_one (n / 2 ^ k) with h | h <;> simp [h]

theorem packRow_apply_of_lt (bitArray : Nat → Nat) (width y : Nat) :
    ∀ (n : Nat) (s : Nat → Nat) (bx : Nat), bx < n →
    ((List.range n).foldl (fun out bx2 =>
        fun i => if i = y * bytesPerRow width + bx2
                 then packByte bitArray width y bx2 else out i) s)
      (y * bytesPerRow width + bx) = packByte bitArray width y bx := by
  intro n
  induction n with
  | zero => intro s bx hbx; omega
  | succ n ih =>
      intro s bx hbx
      rw [List.range_succ, List.foldl_append]
      simp only [List.foldl]
      by_cases h : bx = n
      · subst h; simp
      · have hne : y * bytesPerRow width + bx ≠ y * bytesPerRow width + n := by
          omega
        simp only [if_neg hne]
        exact ih s bx (by omega)

theorem packRow_apply_other (bitArray : Nat → Nat) (width y : Nat) :
    ∀ (n : Nat) (s : Nat → Nat) (q : Nat),
    (∀ bx, bx < n → q ≠ y * bytesPerRow width + bx) →
    ((List.range n).foldl (fun out bx2 =>
        fun i => if i = y * bytesPerRow width + bx2
                 then packByte bitArray width y bx2 else out i) s) q = s q := by
  intro n
  induction n with
  | zero => intro s q _; simp
  | succ n ih =>
      intro s q hq
      rw [List.range_succ, List.foldl_append]
      simp only [List.foldl]
      rw [if_neg (hq n (by omega))]
      exact ih s q (fun bx hbx => hq bx (by omega))

/-- The packed raster holds `packByte` at every in-range cell
`y * bytesPerRow + bx`. -/
theorem packBits_apply (bitArray : Nat → Nat) (width : Nat) :
    ∀ (height y bx : Nat), y < height → bx < bytesPerRow width →
    packBitsMonochrome bitArray width height (y * bytesPerRow width + bx) =
      packByte bitArray width y bx := by
  intro height
  induction height with
  | zero => intro y bx hy _; omega
  | succ height ih =>
      intro y bx hy hbx
      unfold packBitsMonochrome
      rw [List.range_succ, List.foldl_append]
      simp only [List.foldl]
      by_cases h : y = height
      · subst h
        exact packRow_apply_of_lt bitArray width y (bytesPerRow width) _ bx hbx
      · have hkey : y * bytesPerRow width + bx <
            height * bytesPerRow width := by
          have h1 : y * bytesPerRow width + bytesPerRow width ≤
              height * bytesPerRow width := by
            have h2 := Nat.mul_le_mul_right (bytesPerRow width)
              (show y + 1 ≤ height by omega)
            simpa [Nat.succ_mul] using h2
          omega
        rw [packRow_apply_other bitArray width height (bytesPerRow width) _ _
          (fun bx2 _ => by omega)]
        have hprev := ih y bx (by omega) hbx
        unfold packBitsMonochrome at hprev
        exact hprev

/-- **C3.** For inputs with entries in `{0, 1}`, the packed raster
reconstructs the bitmap by bit inspection: the bit extracted as
`(packed[y*bytesPerRow + x/8] >> (7 - x%8)) & 1` equals the entry at
`(x, y)`; bit positions at or beyond `width` in the last byte of a row
are zero. -/
theorem packBitsMonochrome_roundtrip (bitArray : Nat → Nat)
    (width height : Nat) (hbin : ∀ i, bitArray i = 0 ∨ bitArray i = 1)
    (x y : Nat) (hx : x < width) (hy : y < height) :
    ((packBitsMonochrome bitArray width height
        (y * bytesPerRow width + x / 8)) >>> (7 - x % 8)) &&& 1 =
      bitArray (y * width + x) ∧
    (∀ x2, width ≤ x2 → x2 < bytesPerRow width * 8 →
      ((packBitsMonochrome bitArray width height
          (y * bytesPerRow width + x2 / 8)) >>> (7 - x2 % 8)) &&& 1 = 0) := by
  constructor
  · have hx8 : x / 8 < bytesPerRow width := by unfold bytesPerRow; omega
    rw [packBits_apply bitArray width height y (x / 8) hy hx8,
      shiftRight_and_one,
      packByte_testBit bitArray width y (x / 8) (x % 8) (by omega)]
    have hxx : x / 8 * 8 + x % 8 = x := by omega
    rw [hxx]
    rcases hbin (y * width + x) with h | h <;> simp [h, hx]
  · intro x2 hx2 hx2b
    have hx8 : x2 / 8 < bytesPerRow width := by unfold bytesPerRow at *; omega
    rw [packBits_apply bitArray width height y (x2 / 8) hy hx8,
      shiftRight_and_one,
      packByte_testBit bitArray width y (x2 / 8) (x2 % 8) (by omega)]
    have hxx : x2 / 8 * 8 + x2 % 8 = x2 := by omega
    rw [hxx]
    simp [show ¬(x2 < width) by omega]

theorem packBitsMonochrome_roundtrip_witness :
    ((packBitsMonochrome (fun i => i % 2) 10 1
        (0 * bytesPerRow 10 + 3 / 8)) >>> (7 - 3 % 8)) &&& 1 =
      (fun i => i % 2) (0 * 10 + 3) :=
  (packBitsMonochrome_roundtrip (fun i => i % 2) 10 1
    (fun i => Nat.mod_two_eq_zero_or_one i) 3 0 (by omega) (by omega)).1

/-- **C10.** The Packer does not validate the single-bit invariant: a
packed bit is set exactly when the entry at `y*width + x` is nonzero, so
any nonzero entry (not only 1) is treated as a mark and silently
coerced. -/
theorem packBitsMonochrome_truthy (bitArray : Nat → Nat)
    (width height x y : Nat) (hx : x < width) (hy : y < height) :
    ((packBitsMonochrome bitArray width height
        (y * bytesPerRow width + x / 8)) >>> (7 - x % 8)) &&& 1 =
      if bitArray (y * width + x) ≠ 0 then 1 else 0 := by
  have hx8 : x / 8 < bytesPerRow width := by unfold bytesPerRow; omega
  rw [packBits_apply bitArray width height y (x / 8) hy hx8,
    shiftRight_and_one,
    packByte_testBit bitArray width y (x / 8) (x % 8) (by omega)]
  have hxx : x / 8 * 8 + x % 8 = x := by omega
  rw [hxx]
  by_cases h : bitArray (y * width + x) = 0 <;> simp [h, hx]

theorem packBitsMonochrome_truthy_witness :
    ((packBitsMonochrome (fun _ => 2) 8 1
        (0 * bytesPerRow 8 + 0 / 8)) >>> (7 - 0 % 8)) &&& 1 =
      if (fun _ => (2 : Nat)) (0 * 8 + 0) ≠ 0 then 1 else 0 :=
  packBitsMonochrome_truthy (fun _ => 2) 8 1 0 0 (by omega) (by omega)
